import Mathlib

/-!
Shallow embedding of the sensor-connectivity core of the `edoxb_smart_home`
backend (Python), covering:

* `MQTTProtocol._topic_matches`, `_extract_data_from_topic`, `_message_loop`
  (RAM-state updates and the retained-message gate), and `read_data`
  (`src/backend/app/protocols/mqtt_protocol.py`);
* `PortManager.is_port_available`, `assign_port`, `release_port`
  (`src/backend/app/services/port_manager.py`) and the WebSocket
  `_assign_port` / `connect` port path
  (`src/backend/app/protocols/websocket_protocol.py`);
* `HTTPProtocol.read_data` and `WebSocketProtocol.read_data`;
* `MongoClientWrapper.save_sensor_data` / `cleanup_old_data`
  (`src/backend/app/db/mongo_client.py`).

Machine conventions: wall-clock instants are naturals (seconds); Python
dictionaries are association lists with unique keys; Python sets of ports are
`Finset Nat`; OS-level effects (the socket bind probe, the export-file write)
are boolean oracles passed in as parameters; a raising Python method that may
mutate state before raising is embedded as a function returning the final
state together with an `Except` result.
-/

namespace SmartHome

/-! ### Association-list model of Python `dict` -/

/-- Lookup in a Python-dict model: first binding of the key, if any. -/
def dictGet (k : String) : List (String × α) → Option α
  | [] => none
  | (k', v') :: rest => if k' = k then some v' else dictGet k rest

/-- Assignment `d[k] = v` on a Python dict: replace the existing binding in place,
or append a fresh binding at the end. -/
def dictInsert (k : String) (v : α) : List (String × α) → List (String × α)
  | [] => [(k, v)]
  | (k', v') :: rest =>
      if k' = k then (k', v) :: rest else (k', v') :: dictInsert k v rest

/-- Deletion `del d[k]` / `d.pop(k, None)` on a Python dict: drop the binding. -/
def dictRemove (k : String) : List (String × α) → List (String × α)
  | [] => []
  | (k', v') :: rest =>
      if k' = k then rest else (k', v') :: dictRemove k rest

/-- Keys of the dict model. -/
def dictKeys (d : List (String × α)) : List String := d.map Prod.fst

theorem dictGet_insert_self (k : String) (v : α) (d : List (String × α)) :
    dictGet k (dictInsert k v d) = some v := by
  induction d with
  | nil => simp [dictInsert, dictGet]
  | cons hd tl ih =>
    obtain ⟨k', v'⟩ := hd
    by_cases h : k' = k <;> simp [dictInsert, dictGet, h, ih]

theorem dictGet_insert_other (k k' : String) (v : α) (d : List (String × α))
    (hne : k' ≠ k) : dictGet k' (dictInsert k v d) = dictGet k' d := by
  induction d with
  | nil =>
    simp only [dictInsert, dictGet]
    rw [if_neg (fun h => hne h.symm)]
  | cons hd tl ih =>
    obtain ⟨k₀, v₀⟩ := hd
    by_cases h : k₀ = k
    · subst h
      have hkk : ¬(k₀ = k') := fun h => hne h.symm
      simp [dictInsert, dictGet, hkk]
    · by_cases h2 : k₀ = k'
      · simp [dictInsert, dictGet, h, h2, hne]
      · simp [dictInsert, dictGet, h, h2, ih]

theorem dictGet_eq_none_of_not_mem (k : String) (d : List (String × α))
    (hk : k ∉ dictKeys d) : dictGet k d = none := by
  induction d with
  | nil => rfl
  | cons hd tl ih =>
    obtain ⟨k₀, v₀⟩ := hd
    simp only [dictKeys, List.map_cons, List.mem_cons, not_or] at hk
    simp only [dictGet]
    rw [if_neg (fun h => hk.1 h.symm)]
    exact ih hk.2

theorem dictGet_remove_self (k : String) (d : List (String × α))
    (hnd : (dictKeys d).Nodup) : dictGet k (dictRemove k d) = none := by
  induction d with
  | nil => rfl
  | cons hd tl ih =>
    obtain ⟨k₀, v₀⟩ := hd
    simp only [dictKeys, List.map_cons, List.nodup_cons] at hnd
    by_cases h : k₀ = k
    · subst h
      simp only [dictRemove, if_pos rfl]
      exact dictGet_eq_none_of_not_mem _ _ hnd.1
    · simp only [dictRemove, if_neg h, dictGet]
      exact ih hnd.2

theorem dictGet_remove_other (k k' : String) (d : List (String × α))
    (hne : k' ≠ k) : dictGet k' (dictRemove k d) = dictGet k' d := by
  induction d with
  | nil => rfl
  | cons hd tl ih =>
    obtain ⟨k₀, v₀⟩ := hd
    by_cases h : k₀ = k
    · subst h
      have hkk : ¬(k₀ = k') := fun h => hne h.symm
      simp [dictRemove, dictGet, hkk]
    · by_cases h2 : k₀ = k'
      · simp [dictRemove, dictGet, h, h2, hne]
      · simp [dictRemove, dictGet, h, h2, ih]

/-! ### MQTT topic matching (`MQTTProtocol._topic_matches`)

Topics and subscription patterns are represented by their `/`-separated
segment lists (`topic.split('/')` in the source); segments never contain
`/`, so string equality of a topic and a pattern coincides with equality of
their segment lists. -/

/-- Flag `self.is_wildcard_topic`, computed in `MQTTProtocol.__init__` as
`"#" in topic_status or "+" in topic_status`; at every call site of
`_topic_matches` the `pattern` argument is exactly `self.topic_status`. -/
def containsWildcard (pattern : List String) : Bool :=
  pattern.any fun s => s.toList.contains '#' || s.toList.contains '+'

/-- The `for i, pattern_part in enumerate(pattern_parts)` loop of
`_topic_matches`: `some b` is an early `return b`, `none` means the loop ran
to completion. The `[], _ :: _` case is unreachable under the caller's
length guard (`len(topic_parts) < len(pattern_parts)` already returned). -/
def matchLoop : List String → List String → Option Bool
  | _, [] => none
  | [], _ :: _ => some false
  | t :: ts, p :: ps =>
      if p = "#" then some true
      else if p = "+" then matchLoop ts ps
      else if p = t then matchLoop ts ps
      else some false

/-- Embedding of `MQTTProtocol._topic_matches(topic, pattern)` on segment lists. -/
def topic_matches (topic pattern : List String) : Bool :=
  if !containsWildcard pattern then decide (topic = pattern)
  else if topic.length < pattern.length then false
  else
    match matchLoop topic pattern with
    | some b => b
    | none =>
        if pattern.getLast? ≠ some "#" ∧ topic.length ≠ pattern.length then
          false
        else true

/-- One-segment pattern match used to describe prefixes of a pattern before a
trailing `#`: a `+` matches any segment, a literal only itself. -/
def segMatches (p t : String) : Bool := p = "+" ∨ p = t


theorem containsWildcard_of_hash (pp : List String) (h : "#" ∈ pp) :
    containsWildcard pp = true := by
  simp only [containsWildcard, List.any_eq_true]
  exact ⟨"#", h, by decide⟩

theorem containsWildcard_of_plus (pp : List String) (h : "+" ∈ pp) :
    containsWildcard pp = true := by
  simp only [containsWildcard, List.any_eq_true]
  exact ⟨"+", h, by decide⟩

theorem matchLoop_append_hash (pre tp rest : List String)
    (h : List.Forall₂ (fun p t => segMatches p t = true) pre tp)
    (hrest : rest ≠ []) :
    matchLoop (tp ++ rest) (pre ++ ["#"]) = some true := by
  induction h with
  | nil =>
    obtain ⟨r, rs, rfl⟩ := List.exists_cons_of_ne_nil hrest
    simp [matchLoop]
  | cons hseg _ ih =>
    rename_i p t pre' tp' _
    simp only [List.cons_append, matchLoop]
    rcases (by simpa [segMatches] using hseg : p = "+" ∨ p = t) with hp | hp
    · subst hp
      simp [ih]
    · subst hp
      by_cases hh : p = "#"
      · simp [hh]
      · simp [hh, ih]

theorem matchLoop_no_hash_ne_true (tp pp : List String) (h : "#" ∉ pp) :
    matchLoop tp pp ≠ some true := by
  induction pp generalizing tp with
  | nil => cases tp <;> simp [matchLoop]
  | cons q ps ih =>
    simp only [List.mem_cons, not_or] at h
    cases tp with
    | nil => simp [matchLoop]
    | cons t ts =>
      simp only [matchLoop]
      rw [if_neg (fun hq => h.1 hq.symm)]
      by_cases hq : q = "+"
      · simpa [hq] using ih ts h.2
      · rw [if_neg hq]
        by_cases hqt : q = t
        · simpa [hqt] using ih ts h.2
        · simp [hqt]

theorem matchLoop_set (pp tp : List String) (i : Nat) (v : String)
    (hj : ∀ j : Nat, j < i → pp[j]? ≠ some "#") (hi : pp[i]? = some "+") :
    matchLoop (tp.set i v) pp = matchLoop tp pp := by
  induction pp generalizing tp i with
  | nil => simp at hi
  | cons q ps ih =>
    cases tp with
    | nil => simp
    | cons t ts =>
      cases i with
      | zero =>
        simp only [List.getElem?_cons_zero, Option.some_inj] at hi
        subst hi
        simp [matchLoop]
      | succ n =>
        have hq0 : q ≠ "#" := by
          have := hj 0 (Nat.succ_pos n)
          simpa using this
        simp only [List.getElem?_cons_succ] at hi
        have hj' : ∀ j : Nat, j < n → ps[j]? ≠ some "#" := by
          intro j hlt
          have := hj (j + 1) (Nat.succ_lt_succ hlt)
          simpa using this
        simp only [List.set_cons_succ, matchLoop]
        rw [if_neg hq0, if_neg hq0]
        by_cases hqp : q = "+"
        · simp [hqp, ih _ _ hj' hi]
        · rw [if_neg hqp, if_neg hqp]
          by_cases hqt : q = t
          · simp [hqt, ih _ _ hj' hi]
          · simp [hqt]

theorem matchLoop_literal (pp tp : List String) (i : Nat) (p : String)
    (hml : matchLoop tp pp ≠ some false)
    (hj : ∀ j : Nat, j ≤ i → pp[j]? ≠ some "#")
    (hi : pp[i]? = some p) (hplus : p ≠ "+") : tp[i]? = some p := by
  induction pp generalizing tp i with
  | nil => simp at hi
  | cons q ps ih =>
    cases tp with
    | nil =>
      exact absurd rfl hml
    | cons t ts =>
      cases i with
      | zero =>
        have hqp : q = p := by simpa using hi
        have hq0 : q ≠ "#" := by
          have := hj 0 (Nat.le_refl 0)
          simpa using this
        have hqplus : q ≠ "+" := hqp ▸ hplus
        simp only [matchLoop, if_neg hq0, if_neg hqplus] at hml
        by_cases hqt : q = t
        · simpa using (hqt.symm.trans hqp)
        · exact absurd (by rw [if_neg hqt]) hml
      | succ n =>
        have hq0 : q ≠ "#" := by
          have := hj 0 (Nat.zero_le _)
          simpa using this
        simp only [List.getElem?_cons_succ] at hi
        have hj' : ∀ j : Nat, j ≤ n → ps[j]? ≠ some "#" := by
          intro j hle
          have := hj (j + 1) (Nat.succ_le_succ hle)
          simpa using this
        simp only [matchLoop, if_neg hq0] at hml
        simp only [List.getElem?_cons_succ]
        by_cases hqp : q = "+"
        · exact ih _ _ (by simpa [hqp] using hml) hj' hi
        · rw [if_neg hqp] at hml
          by_cases hqt : q = t
          · exact ih _ _ (by simpa [hqt] using hml) hj' hi
          · exact absurd (if_neg hqt) hml

theorem mem_of_getElem_opt {α : Type} (l : List α) (i : Nat) (a : α)
    (h : l[i]? = some a) : a ∈ l := by
  induction l generalizing i with
  | nil => simp at h
  | cons x xs ih =>
    cases i with
    | zero =>
      simp only [List.getElem?_cons_zero, Option.some_inj] at h
      exact h ▸ List.mem_cons_self x xs
    | succ n =>
      simp only [List.getElem?_cons_succ] at h
      exact List.mem_cons_of_mem x (ih n h)

theorem hash_mem_of_getLast (pp : List String) (h : pp.getLast? = some "#") :
    "#" ∈ pp := by
  obtain ⟨hne, heq⟩ := List.mem_getLast?_eq_getLast (Option.mem_def.mpr h)
  rw [heq]
  exact List.getLast_mem hne

/-- C3: counterexample to the claim as stated. The equal-segment-count
requirement for patterns not terminated by `#` fails on the code: the
pattern `a/#/b` does not end in `#` and the topic `a/x/y/z` has four
segments against the pattern's three, yet `_topic_matches` accepts the
topic, because the loop returns `True` at the mid-pattern `#` before the
final length check is reached. -/
theorem topic_matches_length_clause_cex :
    topic_matches ["a", "x", "y", "z"] ["a", "#", "b"] = true ∧
    (["a", "#", "b"] : List String).getLast? ≠ some "#" ∧
    (["a", "x", "y", "z"] : List String).length ≠
      (["a", "#", "b"] : List String).length := by
  refine ⟨by decide, by decide, by decide⟩

/-- C3 (amended): for `MQTTProtocol._topic_matches` on segment lists:
(1) a trailing `#` matches any non-empty remainder of the topic, after a
prefix matched segmentwise (`+` one arbitrary segment, literals exactly
themselves); (2) a `+` segment not preceded by a `#` matches exactly one
topic segment of arbitrary content — replacing that topic segment never
changes the verdict; (3) a non-wildcard pattern segment not preceded by a
`#` matches only the identical topic segment; (4) a pattern containing no
`#` segment matches only topics with exactly as many segments as the
pattern (for patterns with a mid-pattern `#`, the loop's early `return
True` bypasses the final length check, which is what the counterexample
exhibits). -/
theorem topic_matches_wildcard_laws :
    (∀ pre tp rest : List String,
        List.Forall₂ (fun p t => segMatches p t = true) pre tp → rest ≠ [] →
        topic_matches (tp ++ rest) (pre ++ ["#"]) = true) ∧
    (∀ (tp pp : List String) (i : Nat) (v : String),
        (∀ j : Nat, j < i → pp[j]? ≠ some "#") → pp[i]? = some "+" →
        topic_matches (tp.set i v) pp = topic_matches tp pp) ∧
    (∀ (tp pp : List String) (i : Nat) (p : String),
        topic_matches tp pp = true → (∀ j : Nat, j ≤ i → pp[j]? ≠ some "#") →
        pp[i]? = some p → p ≠ "+" → tp[i]? = some p) ∧
    (∀ tp pp : List String, "#" ∉ pp → topic_matches tp pp = true →
        tp.length = pp.length) := by
  refine ⟨?_, ?_, ?_, ?_⟩
  · intro pre tp rest hf hrest
    have hcw : containsWildcard (pre ++ ["#"]) = true :=
      containsWildcard_of_hash _ (List.mem_append_right _ (List.mem_singleton.mpr rfl))
    have hml := matchLoop_append_hash pre tp rest hf hrest
    have hlen : pre.length = tp.length := List.Forall₂.length_eq hf
    have hrl : 0 < rest.length := List.length_pos.mpr hrest
    have hguard : ¬ ((tp ++ rest).length < (pre ++ ["#"]).length) := by
      simp only [List.length_append, List.length_singleton]
      omega
    simp [topic_matches, hcw, hml, hguard]
    omega
  · intro tp pp i v hj hi
    have hcw := containsWildcard_of_plus pp (mem_of_getElem_opt pp i "+" hi)
    have hml := matchLoop_set pp tp i v hj hi
    simp only [topic_matches, hcw, Bool.not_true, List.length_set, hml]
    rfl
  · intro tp pp i p hmt hj hi hplus
    by_cases hcw : containsWildcard pp = true
    · have hnml : matchLoop tp pp ≠ some false := by
        intro hml
        by_cases hg : tp.length < pp.length
        · simp [topic_matches, hcw, hg, hml] at hmt
        · simp [topic_matches, hcw, hg, hml] at hmt
      exact matchLoop_literal pp tp i p hnml hj hi hplus
    · have hcwf : containsWildcard pp = false := by simpa using hcw
      have htp : tp = pp :=
        of_decide_eq_true (by simpa [topic_matches, hcwf] using hmt)
      rw [htp, hi]
  · intro tp pp hno hmt
    by_cases hcw : containsWildcard pp = true
    · have hA : pp.getLast? ≠ some "#" := fun h => hno (hash_mem_of_getLast pp h)
      by_cases hg : tp.length < pp.length
      · exfalso
        simp [topic_matches, hcw, hg] at hmt
      · cases hml : matchLoop tp pp with
        | some b =>
          cases b with
          | false =>
            exfalso
            simp [topic_matches, hcw, hg, hml] at hmt
          | true => exact absurd hml (matchLoop_no_hash_ne_true tp pp hno)
        | none =>
          by_contra hne
          have hcond : pp.getLast? ≠ some "#" ∧ tp.length ≠ pp.length := ⟨hA, hne⟩
          simp [topic_matches, hcw, hg, hml, hcond] at hmt
    · have hcwf : containsWildcard pp = false := by simpa using hcw
      have htp : tp = pp :=
        of_decide_eq_true (by simpa [topic_matches, hcwf] using hmt)
      rw [htp]

/-- C3 witness: the amended laws applied at concrete inputs — the pattern
`sensors/+/#` accepts the topic `sensors/foo/temperature/x`. -/
theorem topic_matches_wildcard_laws_witness :
    topic_matches ["sensors", "foo", "temperature", "x"]
      ["sensors", "+", "#"] = true :=
  topic_matches_wildcard_laws.1 ["sensors", "+"] ["sensors", "foo"]
    ["temperature", "x"]
    (List.Forall₂.cons (by decide) (List.Forall₂.cons (by decide) List.Forall₂.nil))
    (by decide)

/-! ### MQTT per-sensor state machine
(`MQTTProtocol._message_loop`, `read_data`)

Wall-clock instants are naturals (seconds); `datetime.now()` at each event is
the event's `time` field. Payload values are opaque (`α`); a parsed payload
is either a JSON object or a plain value. -/

/-- A payload after the JSON / float / int / string parse in
`_message_loop`. -/
inductive MqttPayload (α : Type) where
  | obj (entries : List (String × α))
  | prim (v : α)
deriving DecidableEq

/-- One inbound broker message as seen by `_message_loop`. -/
structure MqttMsg (α : Type) where
  topic : List String
  payload : MqttPayload α
  retain : Bool
  time : Nat
deriving DecidableEq

/-- The mutable per-sensor fields touched by `_message_loop` / `read_data`:
`_ram_state`, `_ram_state_timestamp`, `last_update` (base class) and
`connected`. -/
structure MqttState (α : Type) where
  ramState : List (String × MqttPayload α)
  ramTimestamp : Option Nat
  lastUpdate : Option Nat
  connected : Bool
deriving DecidableEq

/-- Embedding of `MQTTProtocol._extract_data_from_topic`: the trailing topic segment when
the topic has at least two segments, `"value"` otherwise. -/
def extract_data_from_topic (tp : List String) : String :=
  if 2 ≤ tp.length then (tp.getLast?).getD "value" else "value"

/-- The retained-message gate of `_message_loop` (lines 287-303): `true`
when the retained message is discarded (`continue`). An empty RAM state
accepts unconditionally (bootstrap); otherwise the message is discarded
when the elapsed time since `last_update` exceeds 60 seconds, with a
never-updated sensor counting as infinitely stale. -/
def retainedGateDiscard (now : Nat) (st : MqttState α) : Bool :=
  if st.ramState.isEmpty ∧ st.ramTimestamp.isNone then false
  else
    match st.lastUpdate with
    | none => true
    | some t => decide (60 < now - t)

/-- One iteration of `_message_loop` for a message on `topic` against the
sensor's `topic_status` pattern: retained gate, topic filter, then the
RAM-state update (wildcard sensors aggregate under the trailing-segment
key; exact sensors merge object payloads and store plain payloads under
`"value"`). `update_last_update()` runs on every applied message. -/
def handleMessage (pattern : List String) (st : MqttState α) (m : MqttMsg α) :
    MqttState α :=
  if m.retain = true ∧ retainedGateDiscard m.time st = true then st
  else if topic_matches m.topic pattern = false then st
  else if containsWildcard pattern then
    { ramState := dictInsert (extract_data_from_topic m.topic) m.payload st.ramState
      ramTimestamp := some m.time
      lastUpdate := some m.time
      connected := st.connected }
  else
    { ramState :=
        match m.payload with
        | .obj entries =>
            entries.foldl
              (fun r kv => dictInsert kv.1 (MqttPayload.prim kv.2) r) st.ramState
        | .prim v => dictInsert "value" (.prim v) st.ramState
      ramTimestamp := some m.time
      lastUpdate := some m.time
      connected := st.connected }

/-- Processing a finite inbound message sequence in arrival order. -/
def processMessages (pattern : List String) (st : MqttState α)
    (msgs : List (MqttMsg α)) : MqttState α :=
  msgs.foldl (handleMessage pattern) st

/-- The `SensorData` value model: name, timestamp (seconds), data map,
status and optional error text. -/
structure SensorDataM (α : Type) where
  sensor_name : String
  timestamp : Nat
  data : List (String × MqttPayload α)
  status : String
  error : Option String
deriving DecidableEq

/-- Embedding of `MQTTProtocol.read_data` at wall-clock `now`: returns the updated
protocol state (its `connected` flag is written on every call) and the
`SensorData` result. The error strings abbreviate the source's formatted
messages. -/
def mqtt_read_data (name : String) (now : Nat) (st : MqttState α) :
    MqttState α × SensorDataM α :=
  match st.ramTimestamp with
  | none =>
      ({ st with connected := false },
       { sensor_name := name, timestamp := now, data := [], status := "error",
         error := some "Nessun dato disponibile" })
  | some ts =>
      if st.ramState.isEmpty then
        ({ st with connected := false },
         { sensor_name := name, timestamp := now, data := [], status := "error",
           error := some "Nessun dato disponibile" })
      else if 120 < now - ts then
        ({ st with connected := false },
         { sensor_name := name, timestamp := ts, data := [], status := "error",
           error := some "Dati non aggiornati" })
      else
        ({ st with connected := true },
         { sensor_name := name, timestamp := ts, data := st.ramState,
           status := "ok", error := none })

theorem dictInsert_ne_nil (k : String) (v : α) (d : List (String × α)) :
    dictInsert k v d ≠ [] := by
  cases d with
  | nil => simp [dictInsert]
  | cons hd tl =>
    obtain ⟨k', v'⟩ := hd
    by_cases h : k' = k <;> simp [dictInsert, h]

theorem handleMessage_wildcard (pattern : List String) (st : MqttState α)
    (m : MqttMsg α) (hr : m.retain = false)
    (hm : topic_matches m.topic pattern = true)
    (hw : containsWildcard pattern = true) :
    handleMessage pattern st m =
      { ramState := dictInsert (extract_data_from_topic m.topic) m.payload st.ramState
        ramTimestamp := some m.time
        lastUpdate := some m.time
        connected := st.connected } := by
  simp [handleMessage, hr, hm, hw]

theorem mqtt_read_data_ok_aux (name : String) (now ts : Nat) (st : MqttState α)
    (h1 : st.ramState ≠ []) (h2 : st.ramTimestamp = some ts)
    (h3 : now - ts ≤ 120) :
    mqtt_read_data name now st =
      ({ st with connected := true },
       { sensor_name := name, timestamp := ts, data := st.ramState,
         status := "ok", error := none }) := by
  have hemp : st.ramState.isEmpty = false := by
    simpa [List.isEmpty_iff] using h1
  have hns : ¬ (120 < now - ts) := Nat.not_lt.mpr h3
  simp [mqtt_read_data, h2, hemp, hns]

/-- C2: for the MQTT protocol variant, `read_data` (1) returns the RAM state
with status `"ok"` and sets `connected := true` whenever the RAM timestamp
is within the 120-second liveness window; (2) returns status `"error"`,
empty data, a non-null error and `connected := false` when the RAM state is
empty or has no timestamp; (3) does the same when the timestamp is more
than 120 seconds old; and (4) after a fresh non-retained matching message,
the next `read_data` within the window reports `"ok"` and restores
`connected := true`. -/
theorem mqtt_read_data_liveness :
    (∀ (α : Type) (name : String) (now ts : Nat) (st : MqttState α),
        st.ramState ≠ [] → st.ramTimestamp = some ts → now - ts ≤ 120 →
        mqtt_read_data name now st =
          ({ st with connected := true },
           { sensor_name := name, timestamp := ts, data := st.ramState,
             status := "ok", error := none })) ∧
    (∀ (α : Type) (name : String) (now : Nat) (st : MqttState α),
        st.ramState = [] ∨ st.ramTimestamp = none →
        (mqtt_read_data name now st).1.connected = false ∧
        (mqtt_read_data name now st).2.status = "error" ∧
        (mqtt_read_data name now st).2.data = [] ∧
        (mqtt_read_data name now st).2.error ≠ none) ∧
    (∀ (α : Type) (name : String) (now ts : Nat) (st : MqttState α),
        st.ramTimestamp = some ts → 120 < now - ts →
        (mqtt_read_data name now st).1.connected = false ∧
        (mqtt_read_data name now st).2.status = "error" ∧
        (mqtt_read_data name now st).2.data = []) ∧
    (∀ (α : Type) (pattern : List String) (name : String) (now : Nat)
        (st : MqttState α) (m : MqttMsg α),
        m.retain = false → topic_matches m.topic pattern = true →
        containsWildcard pattern = true → now - m.time ≤ 120 →
        (mqtt_read_data name now (handleMessage pattern st m)).1.connected = true ∧
        (mqtt_read_data name now (handleMessage pattern st m)).2.status = "ok") := by
  refine ⟨?_, ?_, ?_, ?_⟩
  · intro α name now ts st h1 h2 h3
    exact mqtt_read_data_ok_aux name now ts st h1 h2 h3
  · intro α name now st hor
    rcases hts : st.ramTimestamp with _ | ts
    · simp [mqtt_read_data, hts]
    · rcases hor with hor | hor
      · have hemp : st.ramState.isEmpty = true := by simp [hor]
        simp [mqtt_read_data, hts, hemp]
      · exact absurd hts (by simp [hor])
  · intro α name now ts st h2 hlt
    by_cases hemp : st.ramState.isEmpty = true
    · simp [mqtt_read_data, h2, hemp]
    · have hemp' : st.ramState.isEmpty = false := by simpa using hemp
      simp [mqtt_read_data, h2, hemp', hlt]
  · intro α pattern name now st m hr hm hw hwin
    rw [handleMessage_wildcard pattern st m hr hm hw]
    rw [mqtt_read_data_ok_aux name now m.time _ (dictInsert_ne_nil _ _ _) rfl hwin]
    exact ⟨rfl, rfl⟩

/-- C2 witness: a sensor whose RAM state was updated at second 100 and read
at second 150 reports its state with status `"ok"` and `connected = true`. -/
theorem mqtt_read_data_liveness_witness :
    mqtt_read_data "s" 150
        (⟨[("value", MqttPayload.prim (5 : Nat))], some 100, some 100, false⟩ :
          MqttState Nat) =
      (⟨[("value", MqttPayload.prim 5)], some 100, some 100, true⟩,
       ⟨"s", 100, [("value", MqttPayload.prim 5)], "ok", none⟩) :=
  mqtt_read_data_liveness.1 Nat "s" 150 100
    ⟨[("value", MqttPayload.prim 5)], some 100, some 100, false⟩
    (by decide) rfl (by decide)

/-- C8: (1) the retained-message gate admits a retained message only when
the local RAM state is empty and uninitialised (bootstrap) or the sensor's
`last_update` lies within the liveness window (the code's threshold is 60
seconds, so admission certainly implies an update within the 120-second
window); (2) a retained message arriving when the RAM state is non-empty
and the last update is over 120 seconds old (or never happened) is
discarded without modifying the state. -/
theorem mqtt_retained_gate_policy :
    (∀ (α : Type) (now : Nat) (st : MqttState α),
        retainedGateDiscard now st = false →
        (st.ramState = [] ∧ st.ramTimestamp = none) ∨
        (∃ t : Nat, st.lastUpdate = some t ∧ now - t ≤ 120)) ∧
    (∀ (α : Type) (pattern : List String) (st : MqttState α) (m : MqttMsg α),
        m.retain = true → st.ramState ≠ [] →
        (st.lastUpdate = none ∨ ∃ t : Nat, st.lastUpdate = some t ∧ 120 < m.time - t) →
        handleMessage pattern st m = st) := by
  constructor
  · intro α now st hgate
    by_cases hboot : st.ramState.isEmpty ∧ st.ramTimestamp.isNone
    · left
      exact ⟨List.isEmpty_iff.mp hboot.1, Option.isNone_iff_eq_none.mp hboot.2⟩
    · right
      rcases hlu : st.lastUpdate with _ | t
      · exfalso
        simp [retainedGateDiscard, hlu] at hgate
        exact hboot (by simp [hgate.1, hgate.2])
      · refine ⟨t, rfl, ?_⟩
        have : ¬ (60 < now - t) := by
          intro hgt
          simp [retainedGateDiscard, hlu, hgt] at hgate
          exact hboot (by simp [hgate.1, hgate.2])
        omega
  · intro α pattern st m hr hne hstale
    have hemp : st.ramState.isEmpty = false := by
      simpa [List.isEmpty_iff] using hne
    have hgate : retainedGateDiscard m.time st = true := by
      rcases hstale with hlu | ⟨t, hlu, hgt⟩
      · simp [retainedGateDiscard, hemp, hlu]
      · have h60 : 60 < m.time - t := by omega
        simp [retainedGateDiscard, hemp, hlu, h60]
    simp [handleMessage, hr, hgate]

/-- C8 witness: a retained message at second 200 reaching a sensor whose
state is non-empty and last updated at second 10 is dropped and the state
is bit-for-bit unchanged. -/
theorem mqtt_retained_gate_policy_witness :
    handleMessage ["a", "#"]
        (⟨[("value", MqttPayload.prim (1 : Nat))], some 10, some 10, true⟩ :
          MqttState Nat)
        ⟨["a", "b"], MqttPayload.prim 2, true, 200⟩ =
      ⟨[("value", MqttPayload.prim 1)], some 10, some 10, true⟩ :=
  mqtt_retained_gate_policy.2 Nat ["a", "#"]
    ⟨[("value", MqttPayload.prim 1)], some 10, some 10, true⟩
    ⟨["a", "b"], MqttPayload.prim 2, true, 200⟩
    rfl (by decide) (Or.inr ⟨10, rfl, by decide⟩)

theorem processMessages_frame (pattern : List String) (msgs : List (MqttMsg α)) :
    ∀ (st : MqttState α) (k : String),
      containsWildcard pattern = true →
      (∀ m ∈ msgs, m.retain = false ∧ topic_matches m.topic pattern = true) →
      (∀ m ∈ msgs, extract_data_from_topic m.topic ≠ k) →
      dictGet k (processMessages pattern st msgs).ramState =
        dictGet k st.ramState := by
  induction msgs with
  | nil =>
    intro st k _ _ _
    rfl
  | cons m rest ih =>
    intro st k hw hcond hk
    have hm := hcond m (List.mem_cons_self m rest)
    simp only [processMessages, List.foldl_cons]
    rw [show List.foldl (handleMessage pattern) (handleMessage pattern st m) rest =
        processMessages pattern (handleMessage pattern st m) rest from rfl]
    rw [ih (handleMessage pattern st m) k hw
        (fun m' hm' => hcond m' (List.mem_cons_of_mem m hm'))
        (fun m' hm' => hk m' (List.mem_cons_of_mem m hm'))]
    rw [handleMessage_wildcard pattern st m hm.1 hm.2 hw]
    exact dictGet_insert_other _ k m.payload st.ramState
      (Ne.symm (hk m (List.mem_cons_self m rest)))

theorem processMessages_lookup (pattern : List String) (msgs : List (MqttMsg α)) :
    ∀ st0 : MqttState α, containsWildcard pattern = true →
      (∀ m ∈ msgs, m.retain = false ∧ topic_matches m.topic pattern = true) →
      (msgs.map fun m => extract_data_from_topic m.topic).Nodup →
      ∀ m ∈ msgs,
        dictGet (extract_data_from_topic m.topic)
          (processMessages pattern st0 msgs).ramState = some m.payload := by
  induction msgs with
  | nil =>
    intro st0 _ _ _ m hm
    exact absurd hm (List.not_mem_nil m)
  | cons m₀ rest ih =>
    intro st0 hw hcond hnd m hm
    have hm₀ := hcond m₀ (List.mem_cons_self m₀ rest)
    simp only [List.map_cons, List.nodup_cons] at hnd
    simp only [processMessages, List.foldl_cons]
    rcases List.mem_cons.mp hm with rfl | hmem
    · have hkrest : ∀ m' ∈ rest,
          extract_data_from_topic m'.topic ≠ extract_data_from_topic m.topic := by
        intro m' hm' heq
        exact hnd.1 (heq ▸ List.mem_map_of_mem _ hm')
      rw [show List.foldl (handleMessage pattern)
            (handleMessage pattern st0 m) rest =
          processMessages pattern (handleMessage pattern st0 m) rest from rfl]
      rw [processMessages_frame pattern rest (handleMessage pattern st0 m)
          (extract_data_from_topic m.topic) hw
          (fun m' hm' => hcond m' (List.mem_cons_of_mem m hm')) hkrest]
      rw [handleMessage_wildcard pattern st0 m hm₀.1 hm₀.2 hw]
      exact dictGet_insert_self _ m.payload st0.ramState
    · exact ih (handleMessage pattern st0 m₀) hw
        (fun m' hm' => hcond m' (List.mem_cons_of_mem m₀ hm')) hnd.2 m hmem

/-- C4: for a wildcard-topic MQTT sensor, processing any sequence of
non-retained matching messages with pairwise-distinct trailing segments
yields a RAM-state map holding, under each trailing-segment key, exactly
that message's payload; keys not touched by any message keep the value
they had in the initial state (each per-key update leaves all other keys
undisturbed). -/
theorem mqtt_wildcard_aggregation :
    ∀ (α : Type) (pattern : List String) (st0 : MqttState α)
      (msgs : List (MqttMsg α)),
      containsWildcard pattern = true →
      (∀ m ∈ msgs, m.retain = false ∧ topic_matches m.topic pattern = true) →
      (msgs.map fun m => extract_data_from_topic m.topic).Nodup →
      (∀ m ∈ msgs,
          dictGet (extract_data_from_topic m.topic)
            (processMessages pattern st0 msgs).ramState = some m.payload) ∧
      (∀ k : String, (∀ m ∈ msgs, extract_data_from_topic m.topic ≠ k) →
          dictGet k (processMessages pattern st0 msgs).ramState =
            dictGet k st0.ramState) := by
  intro α pattern st0 msgs hw hcond hnd
  exact ⟨processMessages_lookup pattern msgs st0 hw hcond hnd,
         fun k hk => processMessages_frame pattern msgs st0 k hw hcond hk⟩

/-- C4 witness: on `sensors/foo/#`, messages on `sensors/foo/temperature`
and `sensors/foo/humidity` aggregate into a map holding both values, and
an untouched key keeps its initial (absent) value. -/
theorem mqtt_wildcard_aggregation_witness :
    dictGet "temperature"
        (processMessages ["sensors", "foo", "#"]
          (⟨[], none, none, false⟩ : MqttState Nat)
          [⟨["sensors", "foo", "temperature"], MqttPayload.prim 20, false, 1⟩,
           ⟨["sensors", "foo", "humidity"], MqttPayload.prim 55, false, 2⟩]).ramState =
      some (MqttPayload.prim 20) ∧
    dictGet "humidity"
        (processMessages ["sensors", "foo", "#"]
          (⟨[], none, none, false⟩ : MqttState Nat)
          [⟨["sensors", "foo", "temperature"], MqttPayload.prim 20, false, 1⟩,
           ⟨["sensors", "foo", "humidity"], MqttPayload.prim 55, false, 2⟩]).ramState =
      some (MqttPayload.prim 55) := by
  have h := mqtt_wildcard_aggregation Nat ["sensors", "foo", "#"]
    ⟨[], none, none, false⟩
    [⟨["sensors", "foo", "temperature"], MqttPayload.prim 20, false, 1⟩,
     ⟨["sensors", "foo", "humidity"], MqttPayload.prim 55, false, 2⟩]
    (by decide) (by decide) (by decide)
  exact ⟨h.1 _ (List.mem_cons_self _ _),
         h.1 _ (List.mem_cons_of_mem _ (List.mem_cons_self _ _))⟩

/-! ### Port allocation (`PortManager`, and the WebSocket `connect` port path)

`_used_ports` (a Python `set`) is a duplicate-free list with set-semantics
`add`/`discard`; `_sensor_ports` is a dict. The OS-level bind probe
`_check_port_free` is an oracle `osFree : Nat → Bool`. `assign_port` can
mutate state (the implicit release of the caller's previous port) and then
raise, so it returns the final state together with an `Except` result. -/

/-- Python `set.add`: no-op when the element is already present. -/
def setAdd (p : Nat) (s : List Nat) : List Nat := if p ∈ s then s else p :: s

structure PortManager where
  port_min : Nat
  port_max : Nat
  used_ports : List Nat
  sensor_ports : List (String × Nat)
deriving DecidableEq

/-- The state built by `PortManager.__init__` after range validation. -/
def PortManager.init (port_min port_max : Nat) : PortManager :=
  { port_min := port_min, port_max := port_max, used_ports := [],
    sensor_ports := [] }

/-- Python `range(port_min, port_max + 1)` in ascending order. -/
def portRange (pm : PortManager) : List Nat :=
  List.range' pm.port_min (pm.port_max + 1 - pm.port_min)

/-- Embedding of `PortManager.is_port_available`: internally free and OS-bindable. -/
def is_port_available (osFree : Nat → Bool) (pm : PortManager) (port : Nat) :
    Bool :=
  if port ∈ pm.used_ports then false else osFree port

/-- Embedding of `PortManager.release_port`: discard the sensor's port, if any. -/
def release_port (pm : PortManager) (name : String) : PortManager :=
  match dictGet name pm.sensor_ports with
  | some port =>
      { pm with used_ports := pm.used_ports.erase port,
                sensor_ports := dictRemove name pm.sensor_ports }
  | none => pm

/-- Embedding of `PortManager.assign_port`: release the sensor's previous port first;
then either check a specifically requested port, or scan the range in
ascending order for the first available port. A raised `ValueError` is the
`Except.error` component; the state component is the allocator state at
the moment of the raise. -/
def assign_port (osFree : Nat → Bool) (pm : PortManager) (name : String)
    (requested : Option Nat) : PortManager × Except String Nat :=
  let pm1 := if (dictGet name pm.sensor_ports).isSome then release_port pm name
             else pm
  match requested with
  | some p =>
      if is_port_available osFree pm1 p = false then
        (pm1, Except.error ("Porta " ++ toString p ++
          " non disponibile per sensore " ++ name ++
          ". Porta già in uso o occupata dal sistema."))
      else
        ({ pm1 with used_ports := setAdd p pm1.used_ports,
                    sensor_ports := dictInsert name p pm1.sensor_ports },
         Except.ok p)
  | none =>
      match (portRange pm1).find? (fun q => is_port_available osFree pm1 q) with
      | some p =>
          ({ pm1 with used_ports := setAdd p pm1.used_ports,
                      sensor_ports := dictInsert name p pm1.sensor_ports },
           Except.ok p)
      | none =>
          (pm1, Except.error ("Nessuna porta disponibile nel range " ++
            toString pm1.port_min ++ "-" ++ toString pm1.port_max ++
            " per sensore " ++ name))

/-- Embedding of `WebSocketProtocol._assign_port` with an initialised `PortManager`:
delegates to `assign_port` and rewraps a `ValueError` as a `RuntimeError`
with a prefixed message. -/
def ws_assign_port (osFree : Nat → Bool) (pm : PortManager) (name : String)
    (requestedPort : Option Nat) : PortManager × Except String Nat :=
  match assign_port osFree pm name requestedPort with
  | (pm', Except.ok p) => (pm', Except.ok p)
  | (pm', Except.error e) =>
      (pm', Except.error
        ("Impossibile assegnare porta per sensore " ++ name ++ ": " ++ e))

/-- Result of the port-assignment path of `WebSocketProtocol.connect` for a
sensor whose `self.port` is still `None` and whose listener task is not
running. -/
structure WsConnectResult where
  connected : Bool
  port : Option Nat
  pm : PortManager
  error : Option String
deriving DecidableEq

/-- Embedding of `WebSocketProtocol.connect`, port-assignment path: on a raise from
`_assign_port` the `except` branch sets `connected = False` and calls
`_release_port`, which is a no-op because `self.port` is still `None`; a
successful assignment proceeds to start the listener (out of scope here)
and reports `connected = True`. -/
def ws_connect (osFree : Nat → Bool) (pm : PortManager) (name : String)
    (requestedPort : Option Nat) : WsConnectResult :=
  match ws_assign_port osFree pm name requestedPort with
  | (pm', Except.ok p) =>
      { connected := true, port := some p, pm := pm', error := none }
  | (pm', Except.error e) =>
      { connected := false, port := none, pm := pm', error := some e }

theorem release_port_noop (pm : PortManager) (name : String)
    (h : dictGet name pm.sensor_ports = none) : release_port pm name = pm := by
  simp [release_port, h]

theorem assign_pre_eq_release (pm : PortManager) (name : String) :
    (if (dictGet name pm.sensor_ports).isSome then release_port pm name else pm) =
      release_port pm name := by
  rcases h : dictGet name pm.sensor_ports with _ | p
  · simp [h, release_port_noop pm name h]
  · simp [h]

theorem release_port_min (pm : PortManager) (name : String) :
    (release_port pm name).port_min = pm.port_min := by
  rcases h : dictGet name pm.sensor_ports with _ | p <;> simp [release_port, h]

theorem release_port_max (pm : PortManager) (name : String) :
    (release_port pm name).port_max = pm.port_max := by
  rcases h : dictGet name pm.sensor_ports with _ | p <;> simp [release_port, h]

theorem portRange_release (pm : PortManager) (name : String) :
    portRange (release_port pm name) = portRange pm := by
  simp [portRange, release_port_min, release_port_max]

theorem find?_range'_first (n : Nat) :
    ∀ (s : Nat) (pred : Nat → Bool) (p : Nat),
      (List.range' s n).find? pred = some p →
      ∀ q ∈ List.range' s n, q < p → pred q = false := by
  induction n with
  | zero =>
    intro s pred p h
    simp [List.range'] at h
  | succ k ih =>
    intro s pred p h q hq hlt
    rw [List.range'] at h hq
    rcases List.mem_cons.mp hq with rfl | hq'
    · by_cases hs : pred q = true
      · rw [List.find?_cons_of_pos _ hs] at h
        exact absurd (Option.some_inj.mp h ▸ hlt) (lt_irrefl q)
      · simpa using hs
    · by_cases hs : pred s = true
      · rw [List.find?_cons_of_pos _ hs] at h
        have hp : p = s := (Option.some_inj.mp h).symm
        have : s ≤ q := by
          have := List.mem_range'_1.mp hq'
          omega
        omega
      · rw [List.find?_cons_of_neg _ hs] at h
        exact ih (s + 1) pred p h q hq' hlt

/-- C6: a WebSocket-listener sensor with no explicit port, asking a
`PortManager` whose whole range is already held (and which holds no port
for this sensor), gets a failed `connect()` carrying the "Nessuna porta
disponibile" (no port available) error, and the allocator state — its
used-port set and sensor-to-port map — is exactly what it was before the
call. -/
theorem ws_connect_no_port_available :
    ∀ (osFree : Nat → Bool) (pm : PortManager) (name : String),
      dictGet name pm.sensor_ports = none →
      (∀ p : Nat, pm.port_min ≤ p → p ≤ pm.port_max → p ∈ pm.used_ports) →
      ws_connect osFree pm name none =
        { connected := false, port := none, pm := pm,
          error := some (("Impossibile assegnare porta per sensore " ++ name ++
            ": ") ++ ("Nessuna porta disponibile nel range " ++
            toString pm.port_min ++ "-" ++ toString pm.port_max ++
            " per sensore " ++ name)) } := by
  intro osFree pm name hno hfull
  have hpre : (if (dictGet name pm.sensor_ports).isSome then release_port pm name
      else pm) = pm := by simp [hno]
  have hfind : (portRange pm).find? (fun q => is_port_available osFree pm q) =
      none := by
    apply List.find?_eq_none.mpr
    intro q hq
    have hb := List.mem_range'_1.mp (by simpa [portRange] using hq)
    have h1 : pm.port_min ≤ q := hb.1
    have h2 : q ≤ pm.port_max := by omega
    have hmem := hfull q h1 h2
    simp [is_port_available, hmem]
  simp [ws_connect, ws_assign_port, assign_port, hpre, hfind]

/-- C6 witness: range 9000-9001 fully held by two other sensors; the
request for sensor `ws` fails and the allocator is unchanged. -/
theorem ws_connect_no_port_available_witness :
    ws_connect (fun _ => true)
        (⟨9000, 9001, [9000, 9001], [("other1", 9000), ("other2", 9001)]⟩ :
          PortManager) "ws" none =
      { connected := false, port := none,
        pm := ⟨9000, 9001, [9000, 9001], [("other1", 9000), ("other2", 9001)]⟩,
        error := some (("Impossibile assegnare porta per sensore " ++ "ws" ++
          ": ") ++ ("Nessuna porta disponibile nel range " ++
          toString (9000 : Nat) ++ "-" ++ toString (9001 : Nat) ++
          " per sensore " ++ "ws")) } :=
  ws_connect_no_port_available (fun _ => true)
    ⟨9000, 9001, [9000, 9001], [("other1", 9000), ("other2", 9001)]⟩ "ws"
    rfl
    (by
      intro p h1 h2
      have h1' : 9000 ≤ p := h1
      have h2' : p ≤ 9001 := h2
      have hp : p = 9000 ∨ p = 9001 := by omega
      rcases hp with rfl | rfl <;> simp)

theorem assign_port_some_of_avail (osFree : Nat → Bool) (pm : PortManager)
    (name : String) (p : Nat)
    (h : is_port_available osFree (release_port pm name) p = true) :
    assign_port osFree pm name (some p) =
      ({ release_port pm name with
          used_ports := setAdd p (release_port pm name).used_ports,
          sensor_ports := dictInsert name p (release_port pm name).sensor_ports },
       Except.ok p) := by
  simp [assign_port, assign_pre_eq_release, h]

theorem assign_port_some_of_unavail (osFree : Nat → Bool) (pm : PortManager)
    (name : String) (p : Nat)
    (h : is_port_available osFree (release_port pm name) p = false) :
    assign_port osFree pm name (some p) =
      (release_port pm name,
       Except.error ("Porta " ++ toString p ++ " non disponibile per sensore " ++
         name ++ ". Porta già in uso o occupata dal sistema.")) := by
  simp [assign_port, assign_pre_eq_release, h]

/-- C5: counterexample to the claim as stated. The success condition is not
"the port is not already held internally": when the requesting sensor
itself already holds the requested port, `assign_port` first performs the
implicit release of that sensor's port and then succeeds, although the
port was held internally at call time (the claim requires failure here). -/
theorem assign_port_rerequest_cex :
    9000 ∈ (⟨9000, 9001, [9000], [("S", 9000)]⟩ : PortManager).used_ports ∧
    (assign_port (fun _ => true) ⟨9000, 9001, [9000], [("S", 9000)]⟩ "S"
        (some 9000)).2 = Except.ok 9000 := by
  exact ⟨by decide, rfl⟩

/-- C5 (amended): after the implicit release of any port previously held by
the requesting sensor, a specifically requested port is assigned exactly
when it is internally free and passes the OS bind probe (recording it for
the sensor), and otherwise the call raises a descriptive error; with no
requested port, the range is scanned ascending and the first internally
free, OS-bindable port is assigned and recorded, the call failing exactly
when no port of the range qualifies. -/
theorem assign_port_spec :
    (∀ (osFree : Nat → Bool) (pm : PortManager) (name : String) (p : Nat),
        ((assign_port osFree pm name (some p)).2 = Except.ok p ↔
          is_port_available osFree (release_port pm name) p = true) ∧
        (is_port_available osFree (release_port pm name) p = true →
          assign_port osFree pm name (some p) =
            ({ release_port pm name with
                used_ports := setAdd p (release_port pm name).used_ports,
                sensor_ports :=
                  dictInsert name p (release_port pm name).sensor_ports },
             Except.ok p)) ∧
        (is_port_available osFree (release_port pm name) p = false →
          ∃ e : String,
            (assign_port osFree pm name (some p)).2 = Except.error e)) ∧
    (∀ (osFree : Nat → Bool) (pm : PortManager) (name : String),
        (∀ p : Nat, (assign_port osFree pm name none).2 = Except.ok p →
            p ∈ portRange pm ∧
            is_port_available osFree (release_port pm name) p = true ∧
            dictGet name (assign_port osFree pm name none).1.sensor_ports =
              some p ∧
            ∀ q ∈ portRange pm, q < p →
              is_port_available osFree (release_port pm name) q = false) ∧
        ((∀ q ∈ portRange pm,
            is_port_available osFree (release_port pm name) q = false) ↔
          ∃ e : String,
            (assign_port osFree pm name none).2 = Except.error e)) := by
  constructor
  · intro osFree pm name p
    refine ⟨⟨fun hok => ?_, fun hav => by rw [assign_port_some_of_avail osFree pm name p hav]⟩,
            fun hav => assign_port_some_of_avail osFree pm name p hav,
            fun hun => ⟨_, by rw [assign_port_some_of_unavail osFree pm name p hun]⟩⟩
    by_contra hav
    have hun : is_port_available osFree (release_port pm name) p = false := by
      simpa using hav
    rw [assign_port_some_of_unavail osFree pm name p hun] at hok
    exact Except.noConfusion hok
  · intro osFree pm name
    have hrw : assign_port osFree pm name none =
        (match (portRange (release_port pm name)).find?
            (fun q => is_port_available osFree (release_port pm name) q) with
        | some p =>
            ({ release_port pm name with
                used_ports := setAdd p (release_port pm name).used_ports,
                sensor_ports :=
                  dictInsert name p (release_port pm name).sensor_ports },
             Except.ok p)
        | none =>
            (release_port pm name,
             Except.error ("Nessuna porta disponibile nel range " ++
               toString (release_port pm name).port_min ++ "-" ++
               toString (release_port pm name).port_max ++
               " per sensore " ++ name))) := by
      simp only [assign_port, assign_pre_eq_release]
    rcases hf : (portRange (release_port pm name)).find?
        (fun q => is_port_available osFree (release_port pm name) q) with _ | p₀
    · constructor
      · intro p hok
        rw [hrw, hf] at hok
        exact absurd hok (by simp)
      · constructor
        · intro _
          exact ⟨_, by rw [hrw, hf]⟩
        · intro _ q hq
          have := List.find?_eq_none.mp hf q (by rwa [portRange_release])
          simpa using this
    · have hmem : p₀ ∈ portRange pm := by
        rw [← portRange_release pm name]
        exact List.mem_of_find?_eq_some hf
      have hav : is_port_available osFree (release_port pm name) p₀ = true := by
        simpa using List.find?_some hf
      constructor
      · intro p hok
        rw [hrw, hf] at hok
        have hpp : p₀ = p := by simpa using hok
        subst hpp
        refine ⟨hmem, hav, ?_, ?_⟩
        · rw [hrw, hf]
          exact dictGet_insert_self name p₀ _
        · intro q hq hlt
          have hq' : q ∈ portRange (release_port pm name) := by
            rwa [portRange_release]
          exact find?_range'_first _ _ _ _ hf q hq' hlt
      · constructor
        · intro hall
          exact absurd hav (by simp [hall p₀ hmem])
        · intro ⟨e, he⟩
          rw [hrw, hf] at he
          exact absurd he (by simp)

/-- C5 witness: requesting free port 9100 on a fresh allocator succeeds and
records the port. -/
theorem assign_port_spec_witness :
    assign_port (fun _ => true) (PortManager.init 9000 9999) "cam"
        (some 9100) =
      ({ release_port (PortManager.init 9000 9999) "cam" with
          used_ports :=
            setAdd 9100 (release_port (PortManager.init 9000 9999) "cam").used_ports,
          sensor_ports :=
            dictInsert "cam" 9100
              (release_port (PortManager.init 9000 9999) "cam").sensor_ports },
       Except.ok 9100) :=
  (assign_port_spec.1 (fun _ => true) (PortManager.init 9000 9999) "cam"
    9100).2.1 (by decide)

theorem dictGet_some_of_mem_keys (k : String) (d : List (String × α))
    (h : k ∈ dictKeys d) : ∃ v, dictGet k d = some v := by
  induction d with
  | nil => simp [dictKeys] at h
  | cons hd tl ih =>
    obtain ⟨k₀, v₀⟩ := hd
    by_cases hk : k₀ = k
    · exact ⟨v₀, by simp [dictGet, hk]⟩
    · simp only [dictKeys, List.map_cons, List.mem_cons] at h
      rcases h with h | h
      · exact absurd h.symm hk
      · obtain ⟨v, hv⟩ := ih h
        exact ⟨v, by simp [dictGet, hk, hv]⟩

theorem dictKeys_remove_sublist (k : String) (d : List (String × α)) :
    (dictKeys (dictRemove k d)).Sublist (dictKeys d) := by
  induction d with
  | nil => simp [dictRemove]
  | cons hd tl ih =>
    obtain ⟨k₀, v₀⟩ := hd
    by_cases hk : k₀ = k
    · simp only [dictRemove, if_pos hk, dictKeys, List.map_cons]
      exact (List.sublist_cons_self k₀ (List.map Prod.fst tl)).trans
        (List.Sublist.refl _) |>.trans (List.Sublist.refl _)
    · simp only [dictRemove, if_neg hk, dictKeys, List.map_cons]
      exact List.Sublist.cons₂ k₀ ih

theorem dictKeys_insert_of_not_mem (k : String) (v : α) (d : List (String × α))
    (h : k ∉ dictKeys d) : dictKeys (dictInsert k v d) = dictKeys d ++ [k] := by
  induction d with
  | nil => simp [dictInsert, dictKeys]
  | cons hd tl ih =>
    obtain ⟨k₀, v₀⟩ := hd
    simp only [dictKeys, List.map_cons, List.mem_cons, not_or] at h
    have hne : ¬ (k₀ = k) := fun heq => h.1 heq.symm
    simp only [dictInsert, if_neg hne, dictKeys, List.map_cons]
    rw [show List.map Prod.fst (dictInsert k v tl) = dictKeys (dictInsert k v tl)
        from rfl, ih h.2]
    rfl

/-- The inductive state invariant of `PortManager`: the used-port set is
duplicate-free, the sensor-to-port dict has unique keys, a port is used
exactly when some sensor maps to it, and no two sensors share a port. -/
def PMInv (pm : PortManager) : Prop :=
  pm.used_ports.Nodup ∧
  (dictKeys pm.sensor_ports).Nodup ∧
  (∀ p : Nat, p ∈ pm.used_ports ↔
    ∃ n : String, dictGet n pm.sensor_ports = some p) ∧
  (∀ (n₁ n₂ : String) (p : Nat), dictGet n₁ pm.sensor_ports = some p →
    dictGet n₂ pm.sensor_ports = some p → n₁ = n₂)

theorem PMInv_init (a b : Nat) : PMInv (PortManager.init a b) := by
  refine ⟨List.nodup_nil, List.nodup_nil, ?_, ?_⟩
  · intro p
    simp [PortManager.init, dictGet]
  · intro n₁ n₂ p h1
    simp [PortManager.init, dictGet] at h1

theorem PMInv_release (pm : PortManager) (name : String) (h : PMInv pm) :
    PMInv (release_port pm name) := by
  rcases hg : dictGet name pm.sensor_ports with _ | p
  · rw [release_port_noop pm name hg]
    exact h
  · obtain ⟨hnd, hknd, hmem, hinj⟩ := h
    have hrel : release_port pm name =
        { pm with used_ports := pm.used_ports.erase p,
                  sensor_ports := dictRemove name pm.sensor_ports } := by
      simp [release_port, hg]
    rw [hrel]
    refine ⟨hnd.erase p, (dictKeys_remove_sublist name _).nodup hknd, ?_, ?_⟩
    · intro q
      constructor
      · intro hq
        have hq1 := (hnd.mem_erase_iff).mp hq
        obtain ⟨n', hn'⟩ := (hmem q).mp hq1.2
        have hne : n' ≠ name := by
          intro heq
          rw [heq, hg] at hn'
          exact hq1.1 (Option.some_inj.mp hn').symm
        exact ⟨n', by rwa [dictGet_remove_other name n' _ hne]⟩
      · rintro ⟨n', hn'⟩
        have hne : n' ≠ name := by
          intro heq
          rw [heq, dictGet_remove_self name _ hknd] at hn'
          exact Option.noConfusion hn'
        rw [dictGet_remove_other name n' _ hne] at hn'
        have hqused : q ∈ pm.used_ports := (hmem q).mpr ⟨n', hn'⟩
        have hqp : q ≠ p := by
          intro heq
          rw [heq] at hn'
          exact hne (hinj n' name p hn' hg)
        exact hnd.mem_erase_iff.mpr ⟨hqp, hqused⟩
    · intro n₁ n₂ q h1 h2
      have hne1 : n₁ ≠ name := by
        intro heq
        rw [heq, dictGet_remove_self name _ hknd] at h1
        exact Option.noConfusion h1
      have hne2 : n₂ ≠ name := by
        intro heq
        rw [heq, dictGet_remove_self name _ hknd] at h2
        exact Option.noConfusion h2
      rw [dictGet_remove_other name n₁ _ hne1] at h1
      rw [dictGet_remove_other name n₂ _ hne2] at h2
      exact hinj n₁ n₂ q h1 h2

theorem PMInv_record (pm : PortManager) (name : String) (p : Nat)
    (h : PMInv pm) (hp : p ∉ pm.used_ports)
    (hn : dictGet name pm.sensor_ports = none) :
    PMInv { pm with used_ports := setAdd p pm.used_ports,
                    sensor_ports := dictInsert name p pm.sensor_ports } := by
  obtain ⟨hnd, hknd, hmem, hinj⟩ := h
  have hadd : setAdd p pm.used_ports = p :: pm.used_ports := by
    simp [setAdd, hp]
  have hnkey : name ∉ dictKeys pm.sensor_ports := by
    intro hm
    obtain ⟨v, hv⟩ := dictGet_some_of_mem_keys name _ hm
    rw [hn] at hv
    exact Option.noConfusion hv
  refine ⟨?_, ?_, ?_, ?_⟩
  · rw [hadd]
    exact List.nodup_cons.mpr ⟨hp, hnd⟩
  · rw [dictKeys_insert_of_not_mem name p _ hnkey, List.nodup_append]
    exact ⟨hknd, List.nodup_singleton name, by
      intro a ha hb
      rw [List.mem_singleton.mp hb] at ha
      exact hnkey ha⟩
  · intro q
    rw [hadd]
    constructor
    · intro hq
      rcases List.mem_cons.mp hq with rfl | hq'
      · exact ⟨name, dictGet_insert_self name q _⟩
      · obtain ⟨n', hn'⟩ := (hmem q).mp hq'
        have hne : n' ≠ name := by
          intro heq
          rw [heq, hn] at hn'
          exact Option.noConfusion hn'
        exact ⟨n', by rwa [dictGet_insert_other name n' p _ hne]⟩
    · rintro ⟨n', hn'⟩
      by_cases hne : n' = name
      · rw [hne, dictGet_insert_self name p _] at hn'
        exact List.mem_cons.mpr (Or.inl (Option.some_inj.mp hn').symm)
      · rw [dictGet_insert_other name n' p _ hne] at hn'
        exact List.mem_cons.mpr (Or.inr ((hmem q).mpr ⟨n', hn'⟩))
  · intro n₁ n₂ q h1 h2
    by_cases he1 : n₁ = name <;> by_cases he2 : n₂ = name
    · rw [he1, he2]
    · exfalso
      rw [he1, dictGet_insert_self name p _] at h1
      rw [dictGet_insert_other name n₂ p _ he2] at h2
      rw [← Option.some_inj.mp h1] at h2
      exact hp ((hmem p).mpr ⟨n₂, h2⟩)
    · exfalso
      rw [he2, dictGet_insert_self name p _] at h2
      rw [dictGet_insert_other name n₁ p _ he1] at h1
      rw [← Option.some_inj.mp h2] at h1
      exact hp ((hmem p).mpr ⟨n₁, h1⟩)
    · rw [dictGet_insert_other name n₁ p _ he1] at h1
      rw [dictGet_insert_other name n₂ p _ he2] at h2
      exact hinj n₁ n₂ q h1 h2

theorem not_mem_used_of_available (osFree : Nat → Bool) (pm : PortManager)
    (p : Nat) (h : is_port_available osFree pm p = true) :
    p ∉ pm.used_ports := by
  intro hm
  simp [is_port_available, hm] at h

theorem assign_port_none_eq (osFree : Nat → Bool) (pm : PortManager)
    (name : String) :
    assign_port osFree pm name none =
      (match (portRange (release_port pm name)).find?
          (fun q => is_port_available osFree (release_port pm name) q) with
      | some p =>
          ({ release_port pm name with
              used_ports := setAdd p (release_port pm name).used_ports,
              sensor_ports :=
                dictInsert name p (release_port pm name).sensor_ports },
           Except.ok p)
      | none =>
          (release_port pm name,
           Except.error ("Nessuna porta disponibile nel range " ++
             toString (release_port pm name).port_min ++ "-" ++
             toString (release_port pm name).port_max ++
             " per sensore " ++ name))) := by
  simp only [assign_port, assign_pre_eq_release]

theorem release_get_none (pm : PortManager) (name : String) (h : PMInv pm) :
    dictGet name (release_port pm name).sensor_ports = none := by
  rcases hg : dictGet name pm.sensor_ports with _ | p
  · rw [release_port_noop pm name hg]
    exact hg
  · simp only [release_port, hg]
    exact dictGet_remove_self name _ h.2.1

theorem PMInv_assign (osFree : Nat → Bool) (pm : PortManager) (name : String)
    (req : Option Nat) (h : PMInv pm) :
    PMInv (assign_port osFree pm name req).1 := by
  have hrel : PMInv (release_port pm name) := PMInv_release pm name h
  have hnone := release_get_none pm name h
  rcases req with _ | p
  · rw [assign_port_none_eq]
    rcases hf : (portRange (release_port pm name)).find?
        (fun q => is_port_available osFree (release_port pm name) q) with _ | p₀
    · exact hrel
    · have hav : is_port_available osFree (release_port pm name) p₀ = true := by
        simpa using List.find?_some hf
      exact PMInv_record _ name p₀ hrel
        (not_mem_used_of_available osFree _ p₀ hav) hnone
  · rcases hav : is_port_available osFree (release_port pm name) p with _ | _
    · rw [assign_port_some_of_unavail osFree pm name p hav]
      exact hrel
    · rw [assign_port_some_of_avail osFree pm name p hav]
      exact PMInv_record _ name p hrel
        (not_mem_used_of_available osFree _ p hav) hnone

/-- One external call to the allocator: `assign_port` (with the OS bind
probe outcome it observed) or `release_port`. -/
inductive PMCall where
  | assign (osFree : Nat → Bool) (name : String) (requested : Option Nat)
  | release (name : String)

/-- The allocator state after a call (a raising `assign_port` still leaves
its final state). -/
def applyCall (pm : PortManager) : PMCall → PortManager
  | PMCall.assign osFree name req => (assign_port osFree pm name req).1
  | PMCall.release name => release_port pm name

/-- The allocator state after a sequence of calls. -/
def runCalls (pm : PortManager) (cs : List PMCall) : PortManager :=
  cs.foldl applyCall pm

theorem PMInv_runCalls (cs : List PMCall) :
    ∀ pm : PortManager, PMInv pm → PMInv (runCalls pm cs) := by
  induction cs with
  | nil =>
    intro pm h
    exact h
  | cons c rest ih =>
    intro pm h
    have hstep : PMInv (applyCall pm c) := by
      cases c with
      | assign osFree name req => exact PMInv_assign osFree pm name req h
      | release name => exact PMInv_release pm name h
    simpa [runCalls, List.foldl_cons] using ih (applyCall pm c) hstep

/-- C9: from a freshly initialised `PortManager`, after any sequence of
`assign_port` / `release_port` calls, a port is in the internal used-port
set exactly when some sensor is mapped to it, no two sensor names are ever
mapped to the same port, and `release_port` for a sensor holding no port
changes nothing. -/
theorem port_manager_state_inv :
    (∀ (port_min port_max : Nat) (cs : List PMCall),
        (∀ p : Nat,
            p ∈ (runCalls (PortManager.init port_min port_max) cs).used_ports ↔
            ∃ n : String,
              dictGet n
                (runCalls (PortManager.init port_min port_max) cs).sensor_ports =
                some p) ∧
        (∀ (n₁ n₂ : String) (p : Nat),
            dictGet n₁
              (runCalls (PortManager.init port_min port_max) cs).sensor_ports =
              some p →
            dictGet n₂
              (runCalls (PortManager.init port_min port_max) cs).sensor_ports =
              some p →
            n₁ = n₂)) ∧
    (∀ (pm : PortManager) (name : String),
        dictGet name pm.sensor_ports = none → release_port pm name = pm) := by
  constructor
  · intro port_min port_max cs
    have h := PMInv_runCalls cs (PortManager.init port_min port_max)
      (PMInv_init port_min port_max)
    exact ⟨h.2.2.1, h.2.2.2⟩
  · exact release_port_noop

/-- C9 witness: after one auto-assignment on a fresh allocator, the
used-set/value-set correspondence holds at port 9000, and releasing a
sensor that holds nothing is a no-op. -/
theorem port_manager_state_inv_witness :
    (9000 ∈ (runCalls (PortManager.init 9000 9001)
        [PMCall.assign (fun _ => true) "a" none]).used_ports ↔
      ∃ n : String,
        dictGet n (runCalls (PortManager.init 9000 9001)
          [PMCall.assign (fun _ => true) "a" none]).sensor_ports = some 9000) ∧
    release_port (PortManager.init 9000 9001) "ghost" =
      PortManager.init 9000 9001 :=
  ⟨(port_manager_state_inv.1 9000 9001
      [PMCall.assign (fun _ => true) "a" none]).1 9000,
   port_manager_state_inv.2 (PortManager.init 9000 9001) "ghost" rfl⟩

/-! ### Retention / archival (`MongoClientWrapper.save_sensor_data`,
`cleanup_old_data`)

The live store is a list of records; the export-file write
(`export_data_to_file`) is an oracle `exportOk sensor day : Bool`; written
export files are reported as `(sensor, day)` pairs. A calendar day is the
timestamp's day number. -/

def secondsPerDay : Nat := 86400

/-- Python `doc_timestamp.date()`: the calendar day of a timestamp. -/
def dayOf (ts : Nat) : Nat := ts / secondsPerDay

/-- One stored reading (only the fields retention looks at). -/
structure SensorRecord where
  sensor_name : String
  timestamp : Nat
deriving DecidableEq

/-- Embedding of `MongoClientWrapper.save_sensor_data`: insert the new record; collect
this sensor's records older than 24 hours; attempt one export per calendar
day (failures are caught and logged); then — unconditionally, whether or
not each day's export succeeded — delete all of this sensor's old records.
Returns the new store and the `(sensor, day)` export files actually
written. -/
def save_sensor_data (exportOk : String → Nat → Bool) (now : Nat)
    (store : List SensorRecord) (rec : SensorRecord) :
    List SensorRecord × List (String × Nat) :=
  let store1 := store ++ [rec]
  let cutoff := now - 24 * 3600
  let old := store1.filter
    (fun r => r.sensor_name = rec.sensor_name ∧ r.timestamp < cutoff)
  if old.isEmpty then (store1, [])
  else
    let days := (old.map (fun r => dayOf r.timestamp)).dedup
    let written := (days.filter (fun d => exportOk rec.sensor_name d)).map
      (fun d => (rec.sensor_name, d))
    (store1.filter
      (fun r => ¬ (r.sensor_name = rec.sensor_name ∧ r.timestamp < cutoff)),
     written)

/-- Embedding of `MongoClientWrapper.cleanup_old_data`: attempt one export per
`(day, sensor)` group of the over-horizon records (failures caught and
logged), then — unconditionally, outside the `if old_data` block — delete
every over-horizon record of every sensor. Returns the new store, the
export files written, and the deleted count. -/
def cleanup_old_data (exportOk : String → Nat → Bool) (now horizon : Nat)
    (store : List SensorRecord) :
    List SensorRecord × List (String × Nat) × Nat :=
  let cutoff := now - horizon
  let old := store.filter (fun r => r.timestamp < cutoff)
  let groups := (old.map (fun r => (r.sensor_name, dayOf r.timestamp))).dedup
  let written := groups.filter (fun g => exportOk g.1 g.2)
  let newStore := store.filter (fun r => ¬ (r.timestamp < cutoff))
  (newStore, written, old.length)

/-- C1: the code violates the claimed export-before-delete guarantee.
Failing input: sensor `S` has one record (timestamp 0, i.e. two days past
the 24-hour horizon at `now = 259200`) and the export write fails. Both
`save_sensor_data` and `cleanup_old_data` catch the export error, then run
their unconditional `delete_many`, so the never-exported record is purged
from the live store with no export file written — the claim requires the
delete of that day to be aborted. -/
theorem retention_delete_despite_export_failure :
    save_sensor_data (fun _ _ => false) (3 * 86400)
        [⟨"S", 0⟩] ⟨"S", 3 * 86400⟩ =
      ([⟨"S", 3 * 86400⟩], []) ∧
    cleanup_old_data (fun _ _ => false) (3 * 86400) 86400
        [⟨"S", 0⟩, ⟨"S", 3 * 86400⟩] =
      ([⟨"S", 3 * 86400⟩], [], 1) := by
  constructor
  · rfl
  · rfl

/-! ### `read_data` across the protocol variants
(`HTTPProtocol.read_data`, `WebSocketProtocol.read_data`,
`MQTTProtocol.read_data`)

Each Python `read_data` wraps its body in `try/except Exception` (MQTT's
body is pure RAM access and cannot raise); the embedding is therefore a
total function from the observed transport outcome to a `SensorData`
value — a raised transport exception arrives as an explicit outcome and is
mapped to a result, never propagated. -/

/-- Generic `SensorData` for the HTTP and WebSocket variants: `data = none`
models the empty dict `{}`, `some body` a parsed JSON body. -/
structure SensorDataG (β : Type) where
  sensor_name : String
  timestamp : Nat
  data : Option β
  status : String
  error : Option String
deriving DecidableEq

/-- Outcome of the network interaction inside `HTTPProtocol.read_data`:
a 200 response with parsed JSON, a non-200 response, or any raised
`Exception` (connection error, timeout, JSON decode error, ...). -/
inductive HttpReadOutcome (β : Type) where
  | success (body : β)
  | badStatus (code : Nat)
  | exn (msg : String)

/-- Embedding of `HTTPProtocol.read_data`: result together with the `connected` flag it
leaves behind. -/
def http_read_data (name : String) (now : Nat) (outcome : HttpReadOutcome β) :
    Bool × SensorDataG β :=
  match outcome with
  | .success body =>
      (true, { sensor_name := name, timestamp := now, data := some body,
               status := "ok", error := none })
  | .badStatus code =>
      (false, { sensor_name := name, timestamp := now, data := none,
                status := "error", error := some ("HTTP " ++ toString code) })
  | .exn msg =>
      (false, { sensor_name := name, timestamp := now, data := none,
                status := "error", error := some msg })

/-- Whether the body of `WebSocketProtocol.read_data` runs normally or
raises (the `except Exception` arm). -/
inductive WsReadEvent where
  | normal
  | exn (msg : String)

/-- Embedding of `WebSocketProtocol.read_data`: reads `_lastData` without modifying it
(the method performs no assignment, so the stored value survives the
read); returns the post-call `_lastData` alongside the result. -/
def websocket_read_data (name : String) (now : Nat) (lastData : Option β)
    (ev : WsReadEvent) : Option β × SensorDataG β :=
  match ev with
  | .exn msg =>
      (lastData, { sensor_name := name, timestamp := now, data := none,
                   status := "error", error := some msg })
  | .normal =>
      match lastData with
      | some d =>
          (some d, { sensor_name := name, timestamp := now, data := some d,
                     status := "ok", error := none })
      | none =>
          (none, { sensor_name := name, timestamp := now, data := none,
                   status := "ok",
                   error := some "Nessun dato ricevuto dal sensore" })

/-- C7: each protocol's `read_data` is a total function of the observed
transport outcome (no exception escapes to the caller), and every failure
outcome maps to a `SensorData` with status `"error"` and a non-null error
message: (1) an HTTP exception, (2) an HTTP non-200 response, (3) a
WebSocket exception; (4) MQTT `read_data` (whose body cannot raise)
always returns either an `"ok"` result or an `"error"` result with a
non-null message. -/
theorem read_data_never_raises :
    (∀ (β : Type) (name : String) (now : Nat) (msg : String),
        (http_read_data (β := β) name now (HttpReadOutcome.exn msg)).2.status =
          "error" ∧
        (http_read_data (β := β) name now (HttpReadOutcome.exn msg)).2.error =
          some msg) ∧
    (∀ (β : Type) (name : String) (now : Nat) (code : Nat), code ≠ 200 →
        (http_read_data (β := β) name now (HttpReadOutcome.badStatus code)).2.status =
          "error" ∧
        (http_read_data (β := β) name now (HttpReadOutcome.badStatus code)).2.error ≠
          none) ∧
    (∀ (β : Type) (name : String) (now : Nat) (lastData : Option β)
        (msg : String),
        (websocket_read_data name now lastData (WsReadEvent.exn msg)).2.status =
          "error" ∧
        (websocket_read_data name now lastData (WsReadEvent.exn msg)).2.error =
          some msg) ∧
    (∀ (α : Type) (name : String) (now : Nat) (st : MqttState α),
        ((mqtt_read_data name now st).2.status = "ok" ∧
         (mqtt_read_data name now st).1.connected = true) ∨
        ((mqtt_read_data name now st).2.status = "error" ∧
         (mqtt_read_data name now st).2.error ≠ none)) := by
  refine ⟨?_, ?_, ?_, ?_⟩
  · intro β name now msg
    exact ⟨rfl, rfl⟩
  · intro β name now code _
    exact ⟨rfl, by simp [http_read_data]⟩
  · intro β name now lastData msg
    exact ⟨rfl, rfl⟩
  · intro α name now st
    rcases hts : st.ramTimestamp with _ | ts
    · right
      simp [mqtt_read_data, hts]
    · by_cases hemp : st.ramState.isEmpty = true
      · right
        simp [mqtt_read_data, hts, hemp]
      · have hemp' : st.ramState.isEmpty = false := by simpa using hemp
        by_cases hstale : 120 < now - ts
        · right
          simp [mqtt_read_data, hts, hemp', hstale]
        · left
          simp [mqtt_read_data, hts, hemp', hstale]

/-- C7 witness: a concrete HTTP 500 response maps to an `"error"` result
with a non-null message. -/
theorem read_data_never_raises_witness :
    (http_read_data (β := Nat) "s" 0 (HttpReadOutcome.badStatus 500)).2.status =
      "error" ∧
    (http_read_data (β := Nat) "s" 0 (HttpReadOutcome.badStatus 500)).2.error ≠
      none :=
  read_data_never_raises.2.1 Nat "s" 0 500 (by decide)

/-- C10: `WebSocketProtocol.read_data` before any client message returns
status `"ok"` (not `"error"`) with an empty data map and the non-null
message "Nessun dato ricevuto dal sensore"; once a message has been parsed
into `_lastData`, `read_data` returns it with status `"ok"` and the stored
value is left in place by the read. -/
theorem websocket_read_data_last_value :
    (∀ (β : Type) (name : String) (now : Nat),
        websocket_read_data (β := β) name now none WsReadEvent.normal =
          (none, { sensor_name := name, timestamp := now, data := none,
                   status := "ok",
                   error := some "Nessun dato ricevuto dal sensore" })) ∧
    (∀ (β : Type) (name : String) (now : Nat) (d : β),
        websocket_read_data name now (some d) WsReadEvent.normal =
          (some d, { sensor_name := name, timestamp := now, data := some d,
                     status := "ok", error := none })) := by
  exact ⟨fun β name now => rfl, fun β name now d => rfl⟩

end SmartHome
